import Mathlib

/-
  Verification of the ARG (attributed relational graph) representation and the
  VF matching state of the vf2lib repository, shallowly embedded in Lean.

  Sources embedded:
    src/src/argraph.cc      (ARGraph_impl construction, HasEdge, SetEdgeAttr,
                             destroyer/comparator installation, utility classes)
    src/include/argraph.h   (inline accessors, CompatibleNode/CompatibleEdge,
                             GetEdgeAttr, ARGLoader interface)
    src/include/vf_state.h  (VFState fields, IsGoal, IsDead)

  Modelling conventions:
    - node ids (unsigned short in the source) are Nat;
    - attribute handles (void* in the source) are Nat, with 0 playing NULL;
    - the per-node C arrays become Lists, the arrays-of-arrays Lists of Lists;
    - fallible operations return Except ArgError; the source's error() and a
      failing assert() abort the program, so no state is ever observed after
      them, which the Except embedding reflects;
    - the while-loop of the binary search is embedded with an explicit fuel
      argument (the loop body decreases b - a, so fuel b - a suffices); this
      keeps the definition structurally recursive and hence executable.
-/

namespace VF2Lib

/-- Sentinel value for "no node" (`const node_id NULL_NODE=0xFFFF`).  Node
identifiers (`node_id`, `unsigned short` in the source) and attribute handles
(`void *` in the source, `0` playing NULL) are both modelled as `Nat`. -/
def NULL_NODE : Nat := 0xFFFF

/-- Abstract class `ARGLoader` of argraph.h: the pull interface the ARGraph
constructor queries.  `GetOutEdge u i` returns the pair (target node, edge
attribute) that the C++ call `GetOutEdge(u, i, &pattr)` reports. -/
structure ARGLoader where
  NodeCount : Nat
  GetNodeAttr : Nat → Nat
  OutEdgeCount : Nat → Nat
  GetOutEdge : Nat → Nat → Nat × Nat

/-- The sequence of out-neighbours of `u` exactly as phase 1 of the constructor
fills `out[u]`: `out[i][j] = loader->GetOutEdge(i, j, &out_attr[i][j])` for
`j < loader->OutEdgeCount(i)`. -/
def loaderOut (L : ARGLoader) (u : Nat) : List Nat :=
  (List.range (L.OutEdgeCount u)).map (fun j => (L.GetOutEdge u j).1)

/-- The parallel sequence of edge attributes filled into `out_attr[u]`. -/
def loaderOutAttr (L : ARGLoader) (u : Nat) : List Nat :=
  (List.range (L.OutEdgeCount u)).map (fun j => (L.GetOutEdge u j).2)

/-- Value of `in_count[v]` accumulated during phase 1 of the constructor:
one increment for every reported pair `(i, v)`. -/
def inCount (L : ARGLoader) (v : Nat) : Nat :=
  ((List.range L.NodeCount).map (fun i => (loaderOut L i).count v)).sum

/-- Error situations of the library, from error.h / the spec's error table.
`error.h` is not part of the sources given, so the error kinds are modelled
from the spec: `unknownEdge` is `error("ARGraph_impl::SetEdgeAttr: non
existent edge")`, `inconsistentState` is `error("ARGraph_impl::SetEdgeAttr:
inconsistent graph state")`, `inconsistentGraph` is the failure of the
constructor's `assert(l==k)`, `outOfMemory` is `error("Out of memory")` from
`ptrcheck`, and `loaderOverflow` is the spec's `LoaderOverflow` kind (the
constructor in argraph.cc contains no corresponding check). -/
inductive ArgError where
  | outOfMemory
  | boundsViolation
  | unknownEdge
  | inconsistentGraph
  | inconsistentState
  | loaderOverflow
  deriving Repr, DecidableEq

/-- The abstract class `AttrDestroyer`; the only concrete subclass in the
sources is `FunctionAttrDestroyer`, which wraps a C function pointer
(modelled as a Nat handle, `0` = NULL). -/
inductive AttrDestroyer where
  | FunctionAttrDestroyer (func : Nat)
  deriving Repr, DecidableEq

/-- Behaviour of `FunctionAttrDestroyer::destroy`: `if (func!=NULL)
func(attr);`.  The effect is modelled as the list of calls `(func, attr)`
performed. -/
def AttrDestroyer.destroyCalls : AttrDestroyer → Nat → List (Nat × Nat)
  | .FunctionAttrDestroyer f, a => if f ≠ 0 then [(f, a)] else []

/-- An `AttrComparator` object, modelled by its `compatible` method. -/
abbrev AttrComparator := Nat → Nat → Bool

/-- The core loop of `ARGraph_impl::HasEdge` / `ARGraph_impl::SetEdgeAttr`:

    a=0; b=out_count[n1];
    while (a<b)
      { c=(unsigned)(a+b)>>1;
        if (id[c]<n2)      a=c+1;
        else if (id[c]>n2) b=c;
        else               -- found at index c
      }

`bsearchGo id v fuel a b` runs this loop for at most `fuel` iterations and
returns the index found, if any.  Since every iteration shrinks `b - a`,
`fuel = b - a` iterations always suffice (`bsearchGo_fuel_irrel` below). -/
def bsearchGo (id : List Nat) (v : Nat) : Nat → Nat → Nat → Option Nat
  | 0, _, _ => none
  | fuel + 1, a, b =>
    if a < b then
      let c := (a + b) / 2
      if id.getD c 0 < v then bsearchGo id v fuel (c + 1) b
      else if v < id.getD c 0 then bsearchGo id v fuel a c
      else some c
    else none

/-- The binary search of argraph.cc on the index range `[a, b)`. -/
def bsearch (id : List Nat) (v : Nat) (a b : Nat) : Option Nat :=
  bsearchGo id v (b - a) a b

/-- Binary search over a full neighbour list, as `HasEdge(n1, n2, pattr)`
performs it over `out[n1]` with `a=0; b=out_count[n1]`. -/
def bsearchList (id : List Nat) (v : Nat) : Option Nat :=
  bsearch id v 0 id.length

/-- The `HasEdge` test evaluated directly on an out-adjacency array; this is
the form the constructor uses in phase 2 (`if (HasEdge(j,i)) ...`), at which
point only the `out`/`out_attr` arrays are filled. -/
def hasEdgeArr (out : List (List Nat)) (u v : Nat) : Bool :=
  (bsearchList (out.getD u []) v).isSome

/-- The `GetEdgeAttr(j, i)` read the constructor performs in phase 2: the
attribute stored at the index the binary search finds, `NULL` (0) on a miss. -/
def getEdgeAttrArr (out : List (List Nat)) (outA : List (List Nat))
    (u v : Nat) : Nat :=
  match bsearchList (out.getD u []) v with
  | some c => (outA.getD u []).getD c 0
  | none => 0

/-- Representation of `ARGraph_impl` (argraph.h, fields of the private
section).  `inn`/`in_attr` are the `in`/`in_attr` arrays (`in` is a reserved
word in Lean).  The destroyer and comparator slots start out `NULL`. -/
structure ARGraph where
  n : Nat
  attr : List Nat
  in_count : List Nat
  inn : List (List Nat)
  in_attr : List (List Nat)
  out_count : List Nat
  out : List (List Nat)
  out_attr : List (List Nat)
  node_destroyer : Option AttrDestroyer
  edge_destroyer : Option AttrDestroyer
  node_comparator : Option AttrComparator
  edge_comparator : Option AttrComparator

/-- The complete `out` array as phase 1 leaves it. -/
def outArr (L : ARGLoader) : List (List Nat) :=
  (List.range L.NodeCount).map (loaderOut L)

/-- The complete `out_attr` array as phase 1 leaves it. -/
def outAttrArr (L : ARGLoader) : List (List Nat) :=
  (List.range L.NodeCount).map (loaderOutAttr L)

/-- The in-adjacency list the constructor's phase 2 fills for node `v`:
`for(j=0; j<n; j++) if (HasEdge(j,v)) in[v][l++]=j;`. -/
def inListOf (L : ARGLoader) (v : Nat) : List Nat :=
  (List.range L.NodeCount).filter (fun j => hasEdgeArr (outArr L) j v)

/-- The parallel in-attribute list phase 2 fills for node `v`:
`in_attr[v][l] = GetEdgeAttr(j, v)` for each such `j`, i.e. the attribute
found by the binary search over `out[j]`. -/
def inAttrListOf (L : ARGLoader) (v : Nat) : List Nat :=
  (inListOf L v).map (fun j => getEdgeAttrArr (outArr L) (outAttrArr L) j v)

/-- The graph the constructor `ARGraph_impl::ARGraph_impl(ARGLoader*)` builds
when every `assert(l==k)` of phase 2 passes. -/
def mkARGraph (L : ARGLoader) : ARGraph :=
  { n := L.NodeCount
    attr := (List.range L.NodeCount).map L.GetNodeAttr
    in_count := (List.range L.NodeCount).map (inCount L)
    inn := (List.range L.NodeCount).map (inListOf L)
    in_attr := (List.range L.NodeCount).map (inAttrListOf L)
    out_count := (List.range L.NodeCount).map L.OutEdgeCount
    out := outArr L
    out_attr := outAttrArr L
    node_destroyer := none
    edge_destroyer := none
    node_comparator := none
    edge_comparator := none }

/-- The constructor `ARGraph_impl::ARGraph_impl(ARGLoader *loader)`.  It
performs no check on `loader->NodeCount()`.  Phase 1 fills `out`/`out_attr`
straight from the loader (it does NOT sort) and accumulates `in_count`;
phase 2 fills each in-list by binary-searching every node's out-list and
asserts `l==k`, i.e. that the number of sources found equals `in_count[v]`.
A failing assert aborts the program, modelled as `.error .inconsistentGraph`
(the per-node asserts of the source are folded into one check over all
nodes; the source aborts at the first failing node, with the same observable
outcome). -/
def buildARGraph (L : ARGLoader) : Except ArgError ARGraph :=
  if (List.range L.NodeCount).all
      (fun v => (inListOf L v).length == inCount L v)
  then .ok (mkARGraph L)
  else .error .inconsistentGraph

/-- Accessor `NodeCount()`. -/
def NodeCount (g : ARGraph) : Nat := g.n

/-- Accessor `GetNodeAttr(i)`. -/
def GetNodeAttr (g : ARGraph) (i : Nat) : Nat := g.attr.getD i 0

/-- Accessor `OutEdgeCount(node)`. -/
def OutEdgeCount (g : ARGraph) (u : Nat) : Nat := g.out_count.getD u 0

/-- Accessor `InEdgeCount(node)`. -/
def InEdgeCount (g : ARGraph) (v : Nat) : Nat := g.in_count.getD v 0

/-- Two-argument `HasEdge(n1, n2)`: the binary search of argraph.cc over
`out[n1]` with `a=0; b=out_count[n1]`, hit reported as `true`. -/
def HasEdge (g : ARGraph) (n1 n2 : Nat) : Bool :=
  (bsearchList (g.out.getD n1 []) n2).isSome

/-- Three-argument `HasEdge(n1, n2, pattr)`: `some a` models a hit that
stored `a` into `*pattr`; `none` models a miss, which leaves `*pattr`
unwritten and returns `false`. -/
def HasEdgeA (g : ARGraph) (n1 n2 : Nat) : Option Nat :=
  (bsearchList (g.out.getD n1 []) n2).map
    (fun c => (g.out_attr.getD n1 []).getD c 0)

/-- Inline `GetEdgeAttr(n1, n2)` of argraph.h: `if (HasEdge(n1,n2,&attr))
return attr; else return NULL;`. -/
def GetEdgeAttr (g : ARGraph) (n1 n2 : Nat) : Nat :=
  (HasEdgeA g n1 n2).getD 0

/-- Update one entry of a nested list: `m[i][j] = a`. -/
def set2 (m : List (List Nat)) (i j : Nat) (a : Nat) : List (List Nat) :=
  m.set i ((m.getD i []).set j a)

/-- Canonical out-entry attribute of the recorded edge `(u, v)`: the entry of
`out_attr[u]` parallel to the occurrence of `v` in `out[u]`. -/
def outAttrOf (g : ARGraph) (u v : Nat) : Nat :=
  (g.out_attr.getD u []).getD ((g.out.getD u []).indexOf v) 0

/-- Canonical in-entry attribute of the recorded edge `(u, v)`: the entry of
`in_attr[v]` parallel to the occurrence of `u` in `in[v]`. -/
def inAttrOf (g : ARGraph) (v u : Nat) : Nat :=
  (g.in_attr.getD v []).getD ((g.inn.getD v []).indexOf u) 0

/-- Method `SetEdgeAttr(n1, n2, new_attr, destroyOld)` of argraph.cc.  First
the binary search over `out[n1]`; a miss raises
`error("... non existent edge")` (modelled `.error .unknownEdge`) with the
graph untouched.  On a hit the out-entry is replaced, then the binary search
over `in[n2]` replaces the aliased in-entry; a miss there raises
`error("... inconsistent graph state")` (the program aborts, so the
half-updated state is never observable).  `destroyOld` only triggers the
edge-destroyer side effect on the old attribute and does not affect the
resulting graph state. -/
def SetEdgeAttr (g : ARGraph) (n1 n2 : Nat) (newAttr : Nat)
    (destroyOld : Bool := false) : Except ArgError ARGraph :=
  match bsearchList (g.out.getD n1 []) n2 with
  | none => .error .unknownEdge
  | some c =>
    let g' := { g with out_attr := set2 g.out_attr n1 c newAttr }
    match bsearchList (g.inn.getD n2 []) n1 with
    | none => .error .inconsistentState
    | some c2 => .ok { g' with in_attr := set2 g'.in_attr n2 c2 newAttr }

/-- Method `SetNodeDestroyer`: deletes the previous node destroyer and
installs the argument. -/
def SetNodeDestroyer (g : ARGraph) (d : AttrDestroyer) : ARGraph :=
  { g with node_destroyer := some d }

/-- Method `SetEdgeDestroyer`: deletes the previous edge destroyer and
installs the argument. -/
def SetEdgeDestroyer (g : ARGraph) (d : AttrDestroyer) : ARGraph :=
  { g with edge_destroyer := some d }

/-- Method `SetNodeDestroy(fn)`:
`SetNodeDestroyer(new FunctionAttrDestroyer(fn))`. -/
def SetNodeDestroy (g : ARGraph) (fn : Nat) : ARGraph :=
  SetNodeDestroyer g (.FunctionAttrDestroyer fn)

/-- Method `SetEdgeDestroy(fn)` exactly as written in argraph.cc lines
186-188: it calls `SetNodeDestroyer(new FunctionAttrDestroyer(fn))`, i.e. it
installs the wrapper on the NODE destroyer slot. -/
def SetEdgeDestroy (g : ARGraph) (fn : Nat) : ARGraph :=
  SetNodeDestroyer g (.FunctionAttrDestroyer fn)

/-- Method `SetNodeComparator`. -/
def SetNodeComparator (g : ARGraph) (c : AttrComparator) : ARGraph :=
  { g with node_comparator := some c }

/-- Method `SetEdgeComparator`. -/
def SetEdgeComparator (g : ARGraph) (c : AttrComparator) : ARGraph :=
  { g with edge_comparator := some c }

/-- Protected `DestroyNode(attr)`: `if (node_destroyer!=NULL)
node_destroyer->destroy(attr);` — modelled as the list of function calls the
invocation performs. -/
def DestroyNodeCalls (g : ARGraph) (a : Nat) : List (Nat × Nat) :=
  match g.node_destroyer with
  | none => []
  | some d => d.destroyCalls a

/-- Protected `DestroyEdge(attr)`: `if (edge_destroyer!=NULL)
edge_destroyer->destroy(attr);` — modelled as the list of function calls the
invocation performs. -/
def DestroyEdgeCalls (g : ARGraph) (a : Nat) : List (Nat × Nat) :=
  match g.edge_destroyer with
  | none => []
  | some d => d.destroyCalls a

/-- Inline `CompatibleNode(attr1, attr2)` of argraph.h: `true` when no node
comparator is installed, otherwise the comparator's verdict. -/
def CompatibleNode (g : ARGraph) (a1 a2 : Nat) : Bool :=
  match g.node_comparator with
  | none => true
  | some c => c a1 a2

/-- Inline `CompatibleEdge(attr1, attr2)` of argraph.h. -/
def CompatibleEdge (g : ARGraph) (a1 a2 : Nat) : Bool :=
  match g.edge_comparator with
  | none => true
  | some c => c a1 a2

/-- Flag `ST_CORE` of vf_state.h. -/
def ST_CORE : Nat := 0x01

/-- Flag `ST_TERM_IN` of vf_state.h. -/
def ST_TERM_IN : Nat := 0x02

/-- Flag `ST_TERM_OUT` of vf_state.h. -/
def ST_TERM_OUT : Nat := 0x04

/-- Fields of class `VFState` (vf_state.h); the graphs themselves are not
needed for the terminal predicates, which read only the scalar fields. -/
structure VFState where
  core_len : Nat
  t1in_len : Nat
  t1out_len : Nat
  t2in_len : Nat
  t2out_len : Nat
  core_1 : List Nat
  core_2 : List Nat
  node_flags_1 : List Nat
  node_flags_2 : List Nat
  n1 : Nat
  n2 : Nat

/-- Method `IsGoal()` of vf_state.h: `core_len==n1 && core_len==n2`. -/
def IsGoal (s : VFState) : Bool :=
  s.core_len == s.n1 && s.core_len == s.n2

/-- Method `IsDead()` of vf_state.h:
`n1!=n2 || t1out_len!=t2out_len || t1in_len!=t2in_len`. -/
def IsDead (s : VFState) : Bool :=
  s.n1 != s.n2 || s.t1out_len != s.t2out_len || s.t1in_len != s.t2in_len

/-- Test on a flag byte for membership in the core (`ST_CORE` bit set). -/
def coreFlag (f : Nat) : Bool := f &&& ST_CORE != 0

/-- Test on a flag byte for the `ST_TERM_IN` bit. -/
def termInFlag (f : Nat) : Bool := f &&& ST_TERM_IN != 0

/-- Test on a flag byte for the `ST_TERM_OUT` bit. -/
def termOutFlag (f : Nat) : Bool := f &&& ST_TERM_OUT != 0

/-- Loader well-formedness: every reported out-edge targets a node of the
graph.  A loader outside this contract makes the constructor write
`in_count[n2]++` out of bounds (undefined behaviour in the source). -/
def LoaderTargetsOk (L : ARGLoader) : Prop :=
  ∀ u < L.NodeCount, ∀ v ∈ loaderOut L u, v < L.NodeCount

/-- A loader that reports every node's out-edges strictly ascending by
target id. -/
def SortedLoader (L : ARGLoader) : Prop :=
  ∀ u < L.NodeCount, (loaderOut L u).Sorted (· < ·)

/-- The aliasing invariant of the spec: every recorded edge `(u, v)` has an
in-entry at `v`, and the attribute stored there is the same handle as the one
stored in `u`'s out-entry for `v`. -/
def AliasInv (g : ARGraph) : Prop :=
  ∀ u v, v ∈ g.out.getD u [] →
    u ∈ g.inn.getD v [] ∧ inAttrOf g v u = outAttrOf g u v

/-- A graph with no nodes, used to instantiate hook-related theorems. -/
def emptyARGraph : ARGraph :=
  { n := 0, attr := [], in_count := [], inn := [], in_attr := []
    out_count := [], out := [], out_attr := []
    node_destroyer := none, edge_destroyer := none
    node_comparator := none, edge_comparator := none }

/-- A completed one-node matching state, instantiating the C8 theorem. -/
def vfGoalState : VFState :=
  { core_len := 1, t1in_len := 0, t1out_len := 0, t2in_len := 0
    t2out_len := 0, core_1 := [0], core_2 := [0]
    node_flags_1 := [1], node_flags_2 := [1], n1 := 1, n2 := 1 }

/-- A loader that reports node 0's out-edges out of order: `[1, 0]`. -/
def unsortedLoader : ARGLoader :=
  { NodeCount := 2
    GetNodeAttr := fun _ => 0
    OutEdgeCount := fun u => if u = 0 then 2 else 0
    GetOutEdge := fun _ j => if j = 0 then (1, 11) else (0, 12) }

/-- A loader that reports node 0's out-edges out of order: `[2, 1]`. -/
def unsortedLoader3 : ARGLoader :=
  { NodeCount := 3
    GetNodeAttr := fun _ => 0
    OutEdgeCount := fun u => if u = 0 then 2 else 0
    GetOutEdge := fun _ j => if j = 0 then (2, 21) else (1, 22) }

/-- A sorted loader describing the path 0 → 1 → 2. -/
def pathLoader : ARGLoader :=
  { NodeCount := 3
    GetNodeAttr := fun u => u + 100
    OutEdgeCount := fun u => if u < 2 then 1 else 0
    GetOutEdge := fun u _ => (u + 1, 40 + u) }

/-- A loader describing `n` isolated nodes (no edges). -/
def isolatedLoader (n : Nat) : ARGLoader :=
  { NodeCount := n
    GetNodeAttr := fun _ => 0
    OutEdgeCount := fun _ => 0
    GetOutEdge := fun _ _ => (0, 0) }

/-- A sorted loader describing the triangle 0 → 1 → 2 → 0. -/
def triangleLoader : ARGLoader :=
  { NodeCount := 3
    GetNodeAttr := fun _ => 0
    OutEdgeCount := fun _ => 1
    GetOutEdge := fun u _ => ((u + 1) % 3, 7 * (u + 1)) }

/-- A concrete well-formed graph (edges 0→1 attr 10, 0→2 attr 20, 1→2
attr 30) used to instantiate the lookup theorems. -/
def gWitness : ARGraph :=
  { n := 3, attr := [0, 0, 0]
    in_count := [0, 1, 2]
    inn := [[], [0], [0, 1]]
    in_attr := [[], [10], [20, 30]]
    out_count := [2, 1, 0]
    out := [[1, 2], [2], []]
    out_attr := [[10, 20], [30], []]
    node_destroyer := none, edge_destroyer := none
    node_comparator := none, edge_comparator := none }

/-- Result of `SetEdgeAttr(0, 1, 7)` on the graph built from the triangle
loader (the out-entry of 0 for 1 and the in-entry of 1 for 0 both become 7);
the fallback branch is never taken. -/
def triangleSetResult : ARGraph :=
  match SetEdgeAttr (mkARGraph triangleLoader) 0 1 7 false with
  | .ok g => g
  | .error _ => mkARGraph triangleLoader

/-
  Lemmas about the binary search loop.
-/

theorem bsearchGo_none_of_not_lt {id : List Nat} {v : Nat}
    (fuel a b : Nat) (h : ¬ a < b) : bsearchGo id v fuel a b = none := by
  cases fuel with
  | zero => rfl
  | succ fuel => simp [bsearchGo, h]

theorem bsearchGo_fuel_irrel {id : List Nat} {v : Nat} :
    ∀ fuel fuel' a b, b - a ≤ fuel → b - a ≤ fuel' →
      bsearchGo id v fuel a b = bsearchGo id v fuel' a b := by
  intro fuel
  induction fuel with
  | zero =>
    intro fuel' a b h _
    have hab : ¬ a < b := by omega
    rw [bsearchGo_none_of_not_lt 0 a b hab, bsearchGo_none_of_not_lt fuel' a b hab]
  | succ fuel ih =>
    intro fuel' a b h h'
    cases fuel' with
    | zero =>
      have hab : ¬ a < b := by omega
      rw [bsearchGo_none_of_not_lt _ a b hab, bsearchGo_none_of_not_lt 0 a b hab]
    | succ fuel' =>
      by_cases hab : a < b
      · have hc1 : a ≤ (a + b) / 2 := by omega
        have hc2 : (a + b) / 2 < b := by omega
        simp only [bsearchGo, hab, if_true]
        by_cases h1 : id.getD ((a + b) / 2) 0 < v
        · simp only [h1, if_true]
          exact ih fuel' ((a + b) / 2 + 1) b (by omega) (by omega)
        · simp only [h1, if_false]
          by_cases h2 : v < id.getD ((a + b) / 2) 0
          · simp only [h2, if_true]
            exact ih fuel' a ((a + b) / 2) (by omega) (by omega)
          · simp only [h2, if_false]
      · rw [bsearchGo_none_of_not_lt _ a b hab, bsearchGo_none_of_not_lt _ a b hab]

theorem bsearchGo_sound {id : List Nat} {v : Nat} :
    ∀ fuel a b c, bsearchGo id v fuel a b = some c →
      a ≤ c ∧ c < b ∧ id.getD c 0 = v := by
  intro fuel
  induction fuel with
  | zero => intro a b c h; simp [bsearchGo] at h
  | succ fuel ih =>
    intro a b c h
    by_cases hab : a < b
    · simp only [bsearchGo, hab, if_true] at h
      have hc1 : a ≤ (a + b) / 2 := by omega
      have hc2 : (a + b) / 2 < b := by omega
      by_cases h1 : id.getD ((a + b) / 2) 0 < v
      · simp only [h1, if_true] at h
        obtain ⟨ha, hb, hv⟩ := ih _ _ _ h
        exact ⟨by omega, hb, hv⟩
      · simp only [h1, if_false] at h
        by_cases h2 : v < id.getD ((a + b) / 2) 0
        · simp only [h2, if_true] at h
          obtain ⟨ha, hb, hv⟩ := ih _ _ _ h
          exact ⟨ha, by omega, hv⟩
        · simp only [h2, if_false, Option.some.injEq] at h
          subst h
          exact ⟨hc1, hc2, by omega⟩
    · rw [bsearchGo_none_of_not_lt _ a b hab] at h
      exact absurd h (by simp)

theorem bsearch_sound {id : List Nat} {v : Nat} {a b c : Nat}
    (h : bsearch id v a b = some c) :
    a ≤ c ∧ c < b ∧ id.getD c 0 = v :=
  bsearchGo_sound _ _ _ _ h

theorem bsearchList_sound {id : List Nat} {v : Nat} {c : Nat}
    (h : bsearchList id v = some c) :
    c < id.length ∧ id.getD c 0 = v :=
  ⟨(bsearch_sound h).2.1, (bsearch_sound h).2.2⟩

/-- An element at an in-range position is a member of the list. -/
theorem mem_of_getD {l : List Nat} {c : Nat} {v : Nat}
    (hc : c < l.length) (hv : l.getD c 0 = v) : v ∈ l := by
  subst hv
  rw [List.getD_eq_getElem?_getD, List.getElem?_eq_getElem hc]
  exact List.getElem_mem hc

/-- Comparison of entries of a strictly sorted list at increasing positions. -/
theorem sorted_getD_lt {l : List Nat} (hs : l.Sorted (· < ·))
    {i j : Nat} (hij : i < j) (hj : j < l.length) :
    l.getD i 0 < l.getD j 0 := by
  have hi : i < l.length := lt_trans hij hj
  rw [List.getD_eq_getElem?_getD, List.getElem?_eq_getElem hi,
    List.getD_eq_getElem?_getD, List.getElem?_eq_getElem hj]
  exact List.pairwise_iff_getElem.mp hs i j hi hj hij

theorem bsearchGo_found {id : List Nat} {v : Nat}
    (hs : id.Sorted (· < ·)) :
    ∀ fuel a b i, b - a ≤ fuel → b ≤ id.length → a ≤ i → i < b →
      id.getD i 0 = v → (bsearchGo id v fuel a b).isSome := by
  intro fuel
  induction fuel with
  | zero => intro a b i h _ _ _ _; omega
  | succ fuel ih =>
    intro a b i hfuel hlen hai hib hv
    have hab : a < b := by omega
    have hc1 : a ≤ (a + b) / 2 := by omega
    have hc2 : (a + b) / 2 < b := by omega
    simp only [bsearchGo, hab, if_true]
    by_cases h1 : id.getD ((a + b) / 2) 0 < v
    · have hci : (a + b) / 2 < i := by
        by_contra hle
        rcases Nat.lt_or_ge i ((a + b) / 2) with hlt | hge
        · have hj : (a + b) / 2 < id.length := by omega
          have := sorted_getD_lt hs hlt hj
          omega
        · have heq : i = (a + b) / 2 := by omega
          subst heq; omega
      simp only [h1, if_true]
      exact ih ((a + b) / 2 + 1) b i (by omega) hlen (by omega) hib hv
    · by_cases h2 : v < id.getD ((a + b) / 2) 0
      · have hic : i < (a + b) / 2 := by
          by_contra hle
          rcases Nat.lt_or_ge ((a + b) / 2) i with hlt | hge
          · have hj : i < id.length := by omega
            have := sorted_getD_lt hs hlt hj
            omega
          · have heq : i = (a + b) / 2 := by omega
            subst heq; omega
        simp only [h1, if_false, h2, if_true]
        exact ih a ((a + b) / 2) i (by omega) (by omega) hai hic hv
      · simp only [h1, if_false, h2, if_true, Option.isSome_some]

/-- On a strictly sorted list, the full-range binary search hits exactly the
members. -/
theorem bsearchList_isSome_iff {l : List Nat} (hs : l.Sorted (· < ·))
    (v : Nat) : (bsearchList l v).isSome = true ↔ v ∈ l := by
  constructor
  · intro h
    obtain ⟨c, hc⟩ := Option.isSome_iff_exists.mp h
    exact mem_of_getD (bsearchList_sound hc).1 (bsearchList_sound hc).2
  · intro hmem
    obtain ⟨i, hi, hv⟩ := List.getElem_of_mem hmem
    apply bsearchGo_found hs l.length 0 l.length i (by omega) le_rfl (by omega) hi
    rw [List.getD_eq_getElem?_getD, List.getElem?_eq_getElem hi, hv]
    rfl

/-- Read `getD` as `getElem` inside the bounds. -/
theorem getD_eq_getElem {l : List Nat} {c : Nat} (hc : c < l.length) :
    l.getD c 0 = l[c] := by
  rw [List.getD_eq_getElem?_getD, List.getElem?_eq_getElem hc]
  rfl

/-- Positions of a duplicate-free list holding equal values coincide. -/
theorem nodup_getD_inj {l : List Nat} (hnd : l.Nodup) {c d : Nat}
    (hc : c < l.length) (hd : d < l.length)
    (h : l.getD c 0 = l.getD d 0) : c = d := by
  rw [getD_eq_getElem hc, getD_eq_getElem hd] at h
  exact (hnd.getElem_inj_iff).mp h

/-- On a duplicate-free list, a hit of the binary search lands on THE
occurrence of the key. -/
theorem bsearchList_eq_indexOf {l : List Nat} {v c : Nat} (hnd : l.Nodup)
    (h : bsearchList l v = some c) : c = l.indexOf v := by
  obtain ⟨hc, hv⟩ := bsearchList_sound h
  have hmem : v ∈ l := mem_of_getD hc hv
  have hidx : l.indexOf v < l.length := List.indexOf_lt_length.mpr hmem
  apply nodup_getD_inj hnd hc hidx
  rw [hv, getD_eq_getElem hidx, List.getElem_indexOf hidx]

/-- Entry of the image of `List.range` under a map. -/
theorem getD_map_range {α : Type} (f : Nat → α) (d : α) (j n : Nat) :
    ((List.range n).map f).getD j d = if j < n then f j else d := by
  by_cases h : j < n
  · rw [List.getD_eq_getElem?_getD, List.getElem?_map, List.getElem?_range h]
    simp [h]
  · rw [List.getD_eq_getElem?_getD, List.getElem?_eq_none (by simpa using by omega)]
    simp [h]

/-- Pointwise dominated maps with equal sums agree pointwise. -/
theorem sum_map_pointwise_eq {l : List Nat} {f g : Nat → Nat}
    (hle : ∀ x ∈ l, f x ≤ g x) (heq : (l.map f).sum = (l.map g).sum) :
    ∀ x ∈ l, f x = g x := by
  induction l with
  | nil => simp
  | cons a l ih =>
    simp only [List.map_cons, List.sum_cons] at heq
    have h1 : f a ≤ g a := hle a (List.mem_cons_self a l)
    have h2 : (l.map f).sum ≤ (l.map g).sum :=
      List.sum_le_sum (fun x hx => hle x (List.mem_cons_of_mem a hx))
    intro x hx
    rcases List.mem_cons.mp hx with rfl | hx
    · omega
    · exact ih (fun y hy => hle y (List.mem_cons_of_mem a hy)) (by omega) x hx

/-- `countP` as a sum of indicators. -/
theorem countP_eq_sum_map (p : Nat → Bool) (l : List Nat) :
    l.countP p = (l.map (fun x => if p x then 1 else 0)).sum := by
  induction l with
  | nil => rfl
  | cons a l ih =>
    rw [List.countP_cons, List.map_cons, List.sum_cons, ih]
    omega

/-- Unfolding of a successful construction: the graph is `mkARGraph L` and
every node passed the `assert(l==k)` count check of phase 2. -/
theorem build_ok_check {L : ARGLoader} {g : ARGraph}
    (h : buildARGraph L = .ok g) :
    g = mkARGraph L ∧ ∀ v < L.NodeCount, (inListOf L v).length = inCount L v := by
  unfold buildARGraph at h
  by_cases hall : (List.range L.NodeCount).all
      (fun v => (inListOf L v).length == inCount L v)
  · rw [if_pos hall] at h
    refine ⟨by injection h with h; exact h.symm, ?_⟩
    intro v hv
    have := List.all_eq_true.mp hall v (List.mem_range.mpr hv)
    simpa using this
  · rw [if_neg hall] at h
    exact absurd h (by simp)

/-- Conversely, construction succeeds when every count check passes. -/
theorem build_ok_of_check {L : ARGLoader}
    (h : ∀ v < L.NodeCount, (inListOf L v).length = inCount L v) :
    buildARGraph L = .ok (mkARGraph L) := by
  unfold buildARGraph
  rw [if_pos]
  exact List.all_eq_true.mpr
    (fun v hv => by simpa using h v (List.mem_range.mp hv))

/-- Entry `j` of the filled `out` array. -/
theorem outArr_getD (L : ARGLoader) (j : Nat) :
    (outArr L).getD j [] = if j < L.NodeCount then loaderOut L j else [] :=
  getD_map_range _ _ _ _

/-- Entry `j` of the filled `out_attr` array. -/
theorem outAttrArr_getD (L : ARGLoader) (j : Nat) :
    (outAttrArr L).getD j [] = if j < L.NodeCount then loaderOutAttr L j else [] :=
  getD_map_range _ _ _ _

/-- A hit of the phase-2 `HasEdge(j,v)` probe implies the loader reported
the edge `(j, v)`. -/
theorem mem_of_hasEdgeArr {L : ARGLoader} {j v : Nat} (hj : j < L.NodeCount)
    (h : hasEdgeArr (outArr L) j v = true) : v ∈ loaderOut L j := by
  unfold hasEdgeArr at h
  obtain ⟨c, hc⟩ := Option.isSome_iff_exists.mp h
  rw [outArr_getD, if_pos hj] at hc
  exact mem_of_getD (bsearchList_sound hc).1 (bsearchList_sound hc).2

/-- For a loader whose out-lists are strictly ascending, the phase-2 probe
finds exactly the reported edges. -/
theorem hasEdgeArr_iff_mem {L : ARGLoader} (hs : SortedLoader L)
    {j : Nat} (hj : j < L.NodeCount) (v : Nat) :
    hasEdgeArr (outArr L) j v = true ↔ v ∈ loaderOut L j := by
  unfold hasEdgeArr
  rw [outArr_getD, if_pos hj]
  exact bsearchList_isSome_iff (hs j hj) v

/-- For a loader whose out-lists are strictly ascending, every count check of
phase 2 passes. -/
theorem sorted_check_passes {L : ARGLoader} (hs : SortedLoader L) :
    ∀ v < L.NodeCount, (inListOf L v).length = inCount L v := by
  intro v hv
  unfold inListOf inCount
  rw [← List.countP_eq_length_filter,
    countP_eq_sum_map (fun j => hasEdgeArr (outArr L) j v) (List.range L.NodeCount)]
  congr 1
  apply List.map_congr_left
  intro j hj
  have hjn : j < L.NodeCount := List.mem_range.mp hj
  have hnd : (loaderOut L j).Nodup := (hs j hjn).nodup
  by_cases hmem : v ∈ loaderOut L j
  · rw [if_pos ((hasEdgeArr_iff_mem hs hjn v).mpr hmem),
      List.count_eq_one_of_mem hnd hmem]
  · rw [if_neg (fun hcon => hmem ((hasEdgeArr_iff_mem hs hjn v).mp hcon)),
      Eq.comm, List.count_eq_zero]
    exact hmem

/-- For a loader whose out-lists are strictly ascending, the constructor
succeeds and returns exactly the phase-1/phase-2 arrays. -/
theorem build_ok_of_sorted {L : ARGLoader} (hs : SortedLoader L) :
    buildARGraph L = .ok (mkARGraph L) :=
  build_ok_of_check (sorted_check_passes hs)

/-- What passing the count check at every node forces at a single source
`j` and target `v`: `v` occurs in `out[j]` at most once, and the binary
search over the (possibly unsorted!) array `out[j]` finds `v` exactly when
the loader reported the edge `(j, v)`. -/
theorem success_pointwise {L : ARGLoader}
    (hcheck : ∀ v < L.NodeCount, (inListOf L v).length = inCount L v)
    {v : Nat} (hv : v < L.NodeCount) :
    ∀ j < L.NodeCount,
      (loaderOut L j).count v = (if hasEdgeArr (outArr L) j v then 1 else 0)
      ∧ (v ∈ loaderOut L j ↔ hasEdgeArr (outArr L) j v = true) := by
  have hsum : ((List.range L.NodeCount).map
        (fun x => if hasEdgeArr (outArr L) x v then 1 else 0)).sum
      = ((List.range L.NodeCount).map
        (fun i => (loaderOut L i).count v)).sum := by
    rw [← countP_eq_sum_map]
    have := hcheck v hv
    unfold inListOf at this
    rw [← List.countP_eq_length_filter] at this
    exact this
  have hle : ∀ x ∈ List.range L.NodeCount,
      (if hasEdgeArr (outArr L) x v then 1 else 0) ≤ (loaderOut L x).count v := by
    intro x hx
    by_cases hpx : hasEdgeArr (outArr L) x v
    · rw [if_pos hpx]
      exact List.count_pos_iff.mpr (mem_of_hasEdgeArr (List.mem_range.mp hx) hpx)
    · rw [if_neg hpx]
      omega
  have hpt := sum_map_pointwise_eq hle hsum
  intro j hj
  have h1 := (hpt j (List.mem_range.mpr hj)).symm
  refine ⟨h1, ?_, fun h => mem_of_hasEdgeArr hj h⟩
  intro hmem
  have : 0 < (loaderOut L j).count v := List.count_pos_iff.mpr hmem
  by_cases hpj : hasEdgeArr (outArr L) j v
  · exact hpj
  · rw [if_neg hpj] at h1
    omega

/-- Passing every count check makes every out-list duplicate-free, provided
the loader only targets nodes of the graph. -/
theorem success_nodup {L : ARGLoader} (ht : LoaderTargetsOk L)
    (hcheck : ∀ v < L.NodeCount, (inListOf L v).length = inCount L v)
    {j : Nat} (hj : j < L.NodeCount) : (loaderOut L j).Nodup := by
  rw [List.nodup_iff_count_le_one]
  intro v
  by_cases hmem : v ∈ loaderOut L j
  · have hv : v < L.NodeCount := ht j hj v hmem
    have := (success_pointwise hcheck hv j hj).1
    by_cases hp : hasEdgeArr (outArr L) j v <;> simp [hp] at this <;> omega
  · rw [List.count_eq_zero.mpr hmem]
    omega

/-- C7: `SetEdgeDestroy(fn)` installs a `FunctionAttrDestroyer` wrapping `fn`
into the NODE destroyer slot (replacing, and in the source deleting, any
previously installed node destroyer), leaves the edge destroyer slot
unchanged, and consequently edge-attribute destruction (`DestroyEdge`, as
invoked during teardown) performs exactly the same calls as before, so it
does not invoke `fn` through this installation. -/
theorem setEdgeDestroy_installs_on_node_slot (g : ARGraph) (fn a : Nat) :
    (SetEdgeDestroy g fn).node_destroyer
        = some (AttrDestroyer.FunctionAttrDestroyer fn)
    ∧ (SetEdgeDestroy g fn).edge_destroyer = g.edge_destroyer
    ∧ DestroyEdgeCalls (SetEdgeDestroy g fn) a = DestroyEdgeCalls g a :=
  ⟨rfl, rfl, rfl⟩

/-- C8: for every `VFState` satisfying the stated counter invariants,
`IsGoal()` and `IsDead()` are never both true. -/
theorem goal_disjoint_from_dead (s : VFState)
    (hn1 : s.n1 = s.node_flags_1.length)
    (hn2 : s.n2 = s.node_flags_2.length)
    (hc1 : s.core_len = s.node_flags_1.countP coreFlag)
    (hc2 : s.core_len = s.node_flags_2.countP coreFlag)
    (h1in : s.t1in_len
      = s.node_flags_1.countP (fun f => !coreFlag f && termInFlag f))
    (h1out : s.t1out_len
      = s.node_flags_1.countP (fun f => !coreFlag f && termOutFlag f))
    (h2in : s.t2in_len
      = s.node_flags_2.countP (fun f => !coreFlag f && termInFlag f))
    (h2out : s.t2out_len
      = s.node_flags_2.countP (fun f => !coreFlag f && termOutFlag f)) :
    ¬(IsGoal s = true ∧ IsDead s = true) := by
  rintro ⟨hg, hd⟩
  unfold IsGoal at hg
  simp only [Bool.and_eq_true, beq_iff_eq] at hg
  obtain ⟨hg1, hg2⟩ := hg
  have hall1 : ∀ f ∈ s.node_flags_1, coreFlag f = true :=
    List.countP_eq_length.mp (by omega)
  have hall2 : ∀ f ∈ s.node_flags_2, coreFlag f = true :=
    List.countP_eq_length.mp (by omega)
  have h1in0 : s.t1in_len = 0 := by
    rw [h1in]
    exact List.countP_eq_zero.mpr (fun f hf => by simp [hall1 f hf])
  have h1out0 : s.t1out_len = 0 := by
    rw [h1out]
    exact List.countP_eq_zero.mpr (fun f hf => by simp [hall1 f hf])
  have h2in0 : s.t2in_len = 0 := by
    rw [h2in]
    exact List.countP_eq_zero.mpr (fun f hf => by simp [hall2 f hf])
  have h2out0 : s.t2out_len = 0 := by
    rw [h2out]
    exact List.countP_eq_zero.mpr (fun f hf => by simp [hall2 f hf])
  unfold IsDead at hd
  simp only [Bool.or_eq_true, bne_iff_ne, ne_eq] at hd
  rcases hd with (h | h) | h <;> omega

/-- Witness for C8 at a concrete state satisfying all invariants. -/
theorem goal_disjoint_from_dead_witness :
    ¬(IsGoal vfGoalState = true ∧ IsDead vfGoalState = true) :=
  goal_disjoint_from_dead vfGoalState (by decide) (by decide) (by decide)
    (by decide) (by decide) (by decide) (by decide) (by decide)

/-- C9: `CompatibleNode` returns true when no node comparator is installed
and the comparator's verdict when one is; likewise `CompatibleEdge` with the
edge comparator.  Both are total functions (no error path exists). -/
theorem compatible_matches_comparator (g : ARGraph) (a b : Nat) :
    (g.node_comparator = none → CompatibleNode g a b = true)
    ∧ (∀ c, g.node_comparator = some c → CompatibleNode g a b = c a b)
    ∧ (g.edge_comparator = none → CompatibleEdge g a b = true)
    ∧ (∀ c, g.edge_comparator = some c → CompatibleEdge g a b = c a b) := by
  refine ⟨?_, ?_, ?_, ?_⟩
  · intro h; unfold CompatibleNode; rw [h]
  · intro c h; unfold CompatibleNode; rw [h]
  · intro h; unfold CompatibleEdge; rw [h]
  · intro c h; unfold CompatibleEdge; rw [h]

/-- Witness for C9: a graph with no comparators answers true; one with an
equality comparator installed answers the comparator's verdict. -/
theorem compatible_matches_comparator_witness :
    CompatibleNode emptyARGraph 5 7 = true
    ∧ CompatibleNode (SetNodeComparator emptyARGraph (fun x y => x == y)) 5 7
        = (5 == 7)
    ∧ CompatibleEdge emptyARGraph 5 7 = true
    ∧ CompatibleEdge (SetEdgeComparator emptyARGraph (fun x y => x == y)) 5 5
        = (5 == 5) :=
  ⟨(compatible_matches_comparator emptyARGraph 5 7).1 rfl,
   (compatible_matches_comparator _ 5 7).2.1 _ rfl,
   (compatible_matches_comparator emptyARGraph 5 7).2.2.1 rfl,
   (compatible_matches_comparator _ 5 5).2.2.2 _ rfl⟩

/-- Behaviour of the three-argument `HasEdge` on a node whose out-list is
strictly ascending: hit exactly on members, storing the attribute parallel
to the occurrence of the key, and leaving the output slot untouched on a
miss. -/
theorem hasEdgeA_spec {g : ARGraph} {u : Nat} (v : Nat)
    (hs : (g.out.getD u []).Sorted (· < ·)) :
    (HasEdge g u v = true ↔ v ∈ g.out.getD u [])
    ∧ (v ∈ g.out.getD u [] → HasEdgeA g u v = some (outAttrOf g u v))
    ∧ (v ∉ g.out.getD u [] → HasEdgeA g u v = none) := by
  refine ⟨bsearchList_isSome_iff hs v, ?_, ?_⟩
  · intro hmem
    have hsome : (bsearchList (g.out.getD u []) v).isSome :=
      (bsearchList_isSome_iff hs v).mpr hmem
    obtain ⟨c, hc⟩ := Option.isSome_iff_exists.mp hsome
    have hidx : c = (g.out.getD u []).indexOf v :=
      bsearchList_eq_indexOf hs.nodup hc
    unfold HasEdgeA outAttrOf
    rw [hc, hidx]
    rfl
  · intro hmem
    have hnone : bsearchList (g.out.getD u []) v = none := by
      rcases h : bsearchList (g.out.getD u []) v with _ | c
      · rfl
      · exact absurd ((bsearchList_isSome_iff hs v).mp (by rw [h]; rfl)) hmem
    unfold HasEdgeA
    rw [hnone]
    rfl

/-- C3: on an ARG whose out-neighbour array at `u` is strictly ascending,
`HasEdge(u, v, pattr)` returns true iff `v` occurs in `u`'s out-neighbour
array; on a hit it stores into `*pattr` the edge attribute stored at that
out-entry (`HasEdgeA = some`), and on a miss it returns false leaving
`*pattr` unwritten (`HasEdgeA = none`). -/
theorem hasEdge_binary_search (g : ARGraph) (u v : Nat)
    (hu : u < g.n) (hv : v < g.n)
    (hs : (g.out.getD u []).Sorted (· < ·)) :
    (HasEdge g u v = true ↔ v ∈ g.out.getD u [])
    ∧ (v ∈ g.out.getD u [] → HasEdgeA g u v = some (outAttrOf g u v))
    ∧ (v ∉ g.out.getD u [] → HasEdgeA g u v = none) :=
  hasEdgeA_spec v hs

/-- Witness for C3 on the concrete graph `gWitness`: a hit on edge (0, 2)
and the membership equivalence. -/
theorem hasEdge_binary_search_witness :
    (HasEdge gWitness 0 2 = true ↔ 2 ∈ gWitness.out.getD 0 [])
    ∧ (2 ∈ gWitness.out.getD 0 [] →
        HasEdgeA gWitness 0 2 = some (outAttrOf gWitness 0 2))
    ∧ (2 ∉ gWitness.out.getD 0 [] → HasEdgeA gWitness 0 2 = none) :=
  hasEdge_binary_search gWitness 0 2 (by decide) (by decide) (by decide)

/-- C10: for node ids `u, v < n` (out-list at `u` strictly ascending, the
representation invariant), `GetEdgeAttr(u, v)` returns the stored attribute
handle when the edge is recorded and `NULL` (0) when it is absent — so an
absent edge is indistinguishable from a present edge whose stored attribute
is the `NULL` handle. -/
theorem getEdgeAttr_stored_or_null (g : ARGraph) (u v : Nat)
    (hu : u < g.n) (hv : v < g.n)
    (hs : (g.out.getD u []).Sorted (· < ·)) :
    (v ∈ g.out.getD u [] → GetEdgeAttr g u v = outAttrOf g u v)
    ∧ (v ∉ g.out.getD u [] → GetEdgeAttr g u v = 0) := by
  constructor
  · intro hmem
    unfold GetEdgeAttr
    rw [(hasEdgeA_spec v hs).2.1 hmem]
    rfl
  · intro hmem
    unfold GetEdgeAttr
    rw [(hasEdgeA_spec v hs).2.2 hmem]
    rfl

/-- Witness for C10 on `gWitness`: recorded edge (0, 2) yields its stored
handle, absent edge (2, 0) yields `NULL`. -/
theorem getEdgeAttr_stored_or_null_witness :
    GetEdgeAttr gWitness 0 2 = outAttrOf gWitness 0 2
    ∧ GetEdgeAttr gWitness 2 0 = 0 :=
  ⟨(getEdgeAttr_stored_or_null gWitness 0 2 (by decide) (by decide)
      (by decide)).1 (by decide),
   (getEdgeAttr_stored_or_null gWitness 2 0 (by decide) (by decide)
      (by decide)).2 (by decide)⟩

/-- C5: `SetEdgeAttr(u, v, a)` raises `UnknownEdge` precisely when no edge
`u → v` is recorded (out-list at `u` strictly ascending, the representation
invariant).  On that path the error is raised directly from the miss of the
first binary search, before any entry has been modified, so the graph state
is completely untouched — which the `Except` embedding renders by returning
the error without any graph. -/
theorem setEdgeAttr_unknownEdge_iff (g : ARGraph) (u v a : Nat) (dO : Bool)
    (hs : (g.out.getD u []).Sorted (· < ·)) :
    SetEdgeAttr g u v a dO = .error .unknownEdge ↔ v ∉ g.out.getD u [] := by
  unfold SetEdgeAttr
  rcases hb : bsearchList (g.out.getD u []) v with _ | c
  · constructor
    · intro _ hmem
      have := (bsearchList_isSome_iff hs v).mpr hmem
      rw [hb] at this
      exact absurd this (by simp)
    · intro _
      rfl
  · have hmem : v ∈ g.out.getD u [] :=
      (bsearchList_isSome_iff hs v).mp (by rw [hb]; rfl)
    rcases hb2 : bsearchList (g.inn.getD v []) u with _ | c2
    · constructor
      · intro hcon
        injection hcon with h
        exact ArgError.noConfusion h
      · intro hnot
        exact absurd hmem hnot
    · constructor
      · intro hcon
        exact Except.noConfusion hcon
      · intro hnot
        exact absurd hmem hnot

/-- Witness for C5 on `gWitness`: no edge 2 → 0 is recorded, so the update
is rejected with `UnknownEdge`. -/
theorem setEdgeAttr_unknownEdge_iff_witness :
    SetEdgeAttr gWitness 2 0 99 false = .error .unknownEdge :=
  (setEdgeAttr_unknownEdge_iff gWitness 2 0 99 false (by decide)).mpr
    (by decide)

/-- Projection of the built graph: node count. -/
theorem mk_n (L : ARGLoader) : (mkARGraph L).n = L.NodeCount := rfl

/-- Projection of the built graph: out lists. -/
theorem mk_out (L : ARGLoader) : (mkARGraph L).out = outArr L := rfl

/-- Projection of the built graph: out attribute lists. -/
theorem mk_out_attr (L : ARGLoader) : (mkARGraph L).out_attr = outAttrArr L :=
  rfl

/-- Projection of the built graph: out degrees. -/
theorem mk_out_count (L : ARGLoader) :
    (mkARGraph L).out_count = (List.range L.NodeCount).map L.OutEdgeCount :=
  rfl

/-- Projection of the built graph: in lists. -/
theorem mk_inn (L : ARGLoader) :
    (mkARGraph L).inn = (List.range L.NodeCount).map (inListOf L) := rfl

/-- Projection of the built graph: in attribute lists. -/
theorem mk_in_attr (L : ARGLoader) :
    (mkARGraph L).in_attr = (List.range L.NodeCount).map (inAttrListOf L) :=
  rfl

/-- Counterexample for C1: the constructor does not sort.  With the loader
that reports node 0's out-edges in the order `[1, 0]`, construction does not
produce a graph with ascending lists — it does not produce a graph at all,
failing the phase-2 count check (the `assert(l==k)` of argraph.cc), because
the binary searches of phase 2 miss edges of the unsorted out-list. -/
theorem construction_does_not_sort :
    loaderOut unsortedLoader 0 = [1, 0]
    ∧ buildARGraph unsortedLoader = .error .inconsistentGraph :=
  ⟨rfl, rfl⟩

/-- C1 (amended): the constructor stores the loader's out-lists unsorted and
unchecked; provided the loader itself reports each node's out-edges strictly
ascending by neighbour id, construction succeeds and every node's
out-neighbour array and in-neighbour array is strictly ascending. -/
theorem sorted_loader_sorted_adjacency (L : ARGLoader) (hs : SortedLoader L) :
    buildARGraph L = .ok (mkARGraph L)
    ∧ (∀ u, ((mkARGraph L).out.getD u []).Sorted (· < ·))
    ∧ (∀ u, ((mkARGraph L).inn.getD u []).Sorted (· < ·)) := by
  refine ⟨build_ok_of_sorted hs, ?_, ?_⟩
  · intro u
    rw [mk_out, outArr_getD]
    by_cases hu : u < L.NodeCount
    · rw [if_pos hu]; exact hs u hu
    · rw [if_neg hu]; exact List.sorted_nil
  · intro u
    rw [mk_inn, getD_map_range]
    by_cases hu : u < L.NodeCount
    · rw [if_pos hu]
      exact List.Pairwise.sublist (List.filter_sublist _)
        (List.pairwise_lt_range _)
    · rw [if_neg hu]; exact List.sorted_nil

/-- Witness for the amended C1 on the sorted path loader. -/
theorem sorted_loader_sorted_adjacency_witness :
    buildARGraph pathLoader = .ok (mkARGraph pathLoader)
    ∧ ((mkARGraph pathLoader).out.getD 0 []).Sorted (· < ·)
    ∧ ((mkARGraph pathLoader).inn.getD 2 []).Sorted (· < ·) :=
  ⟨(sorted_loader_sorted_adjacency pathLoader (by unfold SortedLoader; decide)).1,
   (sorted_loader_sorted_adjacency pathLoader (by unfold SortedLoader; decide)).2.1 0,
   (sorted_loader_sorted_adjacency pathLoader (by unfold SortedLoader; decide)).2.2 2⟩

/-- Counterexample for C2: the loader `unsortedLoader3` reports the edge
(0, 2) (at index 0), yet no ARG is built from it — construction aborts on
the phase-2 count check — and even on the phase-1 arrays the binary search
misses the reported edge. -/
theorem round_trip_counterexample :
    (unsortedLoader3.GetOutEdge 0 0).1 = 2
    ∧ buildARGraph unsortedLoader3 = .error .inconsistentGraph
    ∧ HasEdge (mkARGraph unsortedLoader3) 0 2 = false :=
  ⟨rfl, rfl, rfl⟩

/-- C2 (amended): for every loader whose out-lists are strictly ascending,
construction succeeds, and the built ARG satisfies `NodeCount() =
L.NodeCount()`, `OutEdgeCount(u) = L.OutEdgeCount(u)` for every node `u`,
and `HasEdge(u, v)` returns true exactly for those pairs `(u, v)` that the
loader reported as an out-edge of `u` at some index. -/
theorem build_round_trip (L : ARGLoader) (hs : SortedLoader L) :
    buildARGraph L = .ok (mkARGraph L)
    ∧ NodeCount (mkARGraph L) = L.NodeCount
    ∧ (∀ u < L.NodeCount, OutEdgeCount (mkARGraph L) u = L.OutEdgeCount u)
    ∧ (∀ u < L.NodeCount, ∀ v,
        (HasEdge (mkARGraph L) u v = true
          ↔ ∃ i < L.OutEdgeCount u, (L.GetOutEdge u i).1 = v)) := by
  refine ⟨build_ok_of_sorted hs, rfl, ?_, ?_⟩
  · intro u hu
    unfold OutEdgeCount
    rw [mk_out_count, getD_map_range, if_pos hu]
  · intro u hu v
    unfold HasEdge
    rw [mk_out, outArr_getD, if_pos hu, bsearchList_isSome_iff (hs u hu) v]
    unfold loaderOut
    simp only [List.mem_map, List.mem_range]

/-- Witness for the amended C2 on the sorted triangle loader. -/
theorem build_round_trip_witness :
    buildARGraph triangleLoader = .ok (mkARGraph triangleLoader)
    ∧ NodeCount (mkARGraph triangleLoader) = 3
    ∧ OutEdgeCount (mkARGraph triangleLoader) 1 = 1
    ∧ (HasEdge (mkARGraph triangleLoader) 1 2 = true
        ↔ ∃ i < triangleLoader.OutEdgeCount 1,
            (triangleLoader.GetOutEdge 1 i).1 = 2) :=
  ⟨(build_round_trip triangleLoader (by unfold SortedLoader; decide)).1,
   (build_round_trip triangleLoader (by unfold SortedLoader; decide)).2.1,
   (build_round_trip triangleLoader (by unfold SortedLoader; decide)).2.2.1 1 (by decide),
   (build_round_trip triangleLoader (by unfold SortedLoader; decide)).2.2.2 1 (by decide) 2⟩

/-- An isolated-nodes loader reports only (vacuously) sorted out-lists. -/
theorem isolatedLoader_sorted (n : Nat) : SortedLoader (isolatedLoader n) := by
  intro u hu
  unfold loaderOut isolatedLoader
  simp only [List.range_zero, List.map_nil]
  exact List.sorted_nil

/-- Counterexample for C6: a loader reporting 65 535 nodes is NOT rejected —
construction succeeds and produces a 65 535-node graph; the constructor of
argraph.cc contains no node-count check and never raises LoaderOverflow. -/
theorem no_overflow_rejection_counterexample :
    buildARGraph (isolatedLoader 65535)
      = .ok (mkARGraph (isolatedLoader 65535))
    ∧ NodeCount (mkARGraph (isolatedLoader 65535)) = 65535 :=
  ⟨build_ok_of_sorted (isolatedLoader_sorted 65535), rfl⟩

/-- C6 (amended): a loader reporting 65 534 nodes is accepted and
construction succeeds; since no node-count check exists, a loader reporting
65 535 nodes is accepted just the same (no LoaderOverflow rejection). -/
theorem node_count_never_checked :
    buildARGraph (isolatedLoader 65534)
      = .ok (mkARGraph (isolatedLoader 65534))
    ∧ buildARGraph (isolatedLoader 65535)
      = .ok (mkARGraph (isolatedLoader 65535)) :=
  ⟨build_ok_of_sorted (isolatedLoader_sorted 65534),
   build_ok_of_sorted (isolatedLoader_sorted 65535)⟩

/-- Entry read of a list updated at the same position. -/
theorem getD_set_self {l : List Nat} {j : Nat} (hj : j < l.length) (a : Nat) :
    (l.set j a).getD j 0 = a := by
  rw [List.getD_eq_getElem?_getD, List.getElem?_set_self hj]
  rfl

/-- Entry read of a list updated at a different position. -/
theorem getD_set_ne {l : List Nat} {i j : Nat} (h : i ≠ j) (a : Nat) :
    (l.set i a).getD j 0 = l.getD j 0 := by
  rw [List.getD_eq_getElem?_getD, List.getElem?_set_ne h,
    ← List.getD_eq_getElem?_getD]

/-- Row read of a nested list updated in the same row. -/
theorem set2_getD_self {m : List (List Nat)} {i : Nat} (hi : i < m.length)
    (j : Nat) (a : Nat) :
    (set2 m i j a).getD i [] = (m.getD i []).set j a := by
  unfold set2
  rw [List.getD_eq_getElem?_getD, List.getElem?_set_self hi]
  rfl

/-- Row read of a nested list updated in another row. -/
theorem set2_getD_ne {m : List (List Nat)} {i k : Nat} (h : i ≠ k)
    (j : Nat) (a : Nat) : (set2 m i j a).getD k [] = m.getD k [] := by
  unfold set2
  rw [List.getD_eq_getElem?_getD, List.getElem?_set_ne h,
    ← List.getD_eq_getElem?_getD]

/-- Out-of-range row reads return the default empty row. -/
theorem getD_default_of_le {m : List (List Nat)} {u : Nat}
    (h : m.length ≤ u) : m.getD u [] = [] := by
  rw [List.getD_eq_getElem?_getD, List.getElem?_eq_none h]
  rfl

/-- A nonempty row read implies the row index is in range. -/
theorem lt_of_getD_length_pos {m : List (List Nat)} {u : Nat}
    (h : 0 < (m.getD u []).length) : u < m.length := by
  by_contra hc
  rw [getD_default_of_le (by omega)] at h
  exact absurd h (by simp)

/-- Entry of a mapped list at an in-range position. -/
theorem getD_map {l : List Nat} {f : Nat → Nat} {i : Nat}
    (hi : i < l.length) (d : Nat) : (l.map f).getD i d = f l[i] := by
  rw [List.getD_eq_getElem?_getD, List.getElem?_map,
    List.getElem?_eq_getElem hi]
  rfl

/-- Aliasing after construction: whenever the constructor succeeds on a
loader whose edges stay inside the graph, every recorded edge's in-entry
holds the same attribute handle as its out-entry. -/
theorem build_alias {L : ARGLoader} {g : ARGraph} (ht : LoaderTargetsOk L)
    (h : buildARGraph L = .ok g) : AliasInv g := by
  obtain ⟨rfl, hcheck⟩ := build_ok_check h
  intro u v hmem
  rw [mk_out, outArr_getD] at hmem
  by_cases hu : u < L.NodeCount
  · rw [if_pos hu] at hmem
    have hv : v < L.NodeCount := ht u hu v hmem
    have hpt := success_pointwise hcheck hv u hu
    have hfind : hasEdgeArr (outArr L) u v = true := hpt.2.mp hmem
    have hmem_in : u ∈ inListOf L v :=
      List.mem_filter.mpr ⟨List.mem_range.mpr hu, hfind⟩
    constructor
    · rw [mk_inn, getD_map_range, if_pos hv]
      exact hmem_in
    · unfold inAttrOf outAttrOf
      rw [mk_inn, mk_in_attr, mk_out, mk_out_attr, getD_map_range,
        getD_map_range, if_pos hv, if_pos hv, outArr_getD, outAttrArr_getD,
        if_pos hu, if_pos hu]
      have hidx : (inListOf L v).indexOf u < (inListOf L v).length :=
        List.indexOf_lt_length.mpr hmem_in
      unfold inAttrListOf
      rw [getD_map hidx, List.getElem_indexOf hidx]
      have hnd : (loaderOut L u).Nodup := success_nodup ht hcheck hu
      unfold hasEdgeArr at hfind
      obtain ⟨c, hc⟩ := Option.isSome_iff_exists.mp hfind
      have hb' : bsearchList (loaderOut L u) v = some c := by
        rw [outArr_getD, if_pos hu] at hc
        exact hc
      unfold getEdgeAttrArr
      rw [hc]
      show ((outAttrArr L).getD u []).getD c 0 = _
      rw [outAttrArr_getD, if_pos hu, bsearchList_eq_indexOf hnd hb']
  · rw [if_neg hu] at hmem
    exact absurd hmem (by simp)

/-- An in-range position holding `x` is the position `indexOf x` when the
list is duplicate-free. -/
theorem getD_eq_indexOf_of_nodup {l : List Nat} {c x : Nat} (hnd : l.Nodup)
    (hc : c < l.length) (hx : l.getD c 0 = x) : c = l.indexOf x := by
  have hmem : x ∈ l := mem_of_getD hc hx
  have hidx := List.indexOf_lt_length.mpr hmem
  apply nodup_getD_inj hnd hc hidx
  rw [hx, getD_eq_getElem hidx, List.getElem_indexOf hidx]

/-- The value stored at `indexOf x` is `x` itself (getD form). -/
theorem getD_indexOf {l : List Nat} {x : Nat} (hmem : x ∈ l) :
    l.getD (l.indexOf x) 0 = x := by
  have hidx := List.indexOf_lt_length.mpr hmem
  rw [getD_eq_getElem hidx, List.getElem_indexOf hidx]

/-- A successful `SetEdgeAttr(u, v, A')` updates both aliased entries: the
aliasing invariant still holds afterwards, the out-entry lookup through
`HasEdge(u, v, &p)` now stores `A'`, and the in-entry at `v` for `u` now
holds `A'`. -/
theorem setEdgeAttr_alias {g : ARGraph} {u v A' : Nat} {dO : Bool}
    {g' : ARGraph}
    (hlen1 : g.out_attr.length = g.out.length)
    (hlen2 : g.in_attr.length = g.inn.length)
    (hrow_out : (g.out_attr.getD u []).length = (g.out.getD u []).length)
    (hrow_in : (g.in_attr.getD v []).length = (g.inn.getD v []).length)
    (hnd_out : (g.out.getD u []).Nodup)
    (hnd_in : (g.inn.getD v []).Nodup)
    (halias : AliasInv g)
    (h : SetEdgeAttr g u v A' dO = .ok g') :
    AliasInv g' ∧ HasEdgeA g' u v = some A' ∧ inAttrOf g' v u = A' := by
  unfold SetEdgeAttr at h
  split at h
  · exact absurd h (by simp)
  · rename_i c hb
    split at h
    · exact absurd h (by simp)
    · rename_i c2 hb2
      injection h with h
      subst h
      obtain ⟨hcb, hvb⟩ := bsearchList_sound hb
      obtain ⟨hc2b, hub⟩ := bsearchList_sound hb2
      have hu_lt : u < g.out_attr.length := by
        rw [hlen1]
        exact lt_of_getD_length_pos (by omega)
      have hv_lt : v < g.in_attr.length := by
        rw [hlen2]
        exact lt_of_getD_length_pos (by omega)
      have hcb' : c < (g.out_attr.getD u []).length := by omega
      have hc2b' : c2 < (g.in_attr.getD v []).length := by omega
      have hK1 : c = (g.out.getD u []).indexOf v :=
        getD_eq_indexOf_of_nodup hnd_out hcb hvb
      have hK2 : c2 = (g.inn.getD v []).indexOf u :=
        getD_eq_indexOf_of_nodup hnd_in hc2b hub
      have hout : ({ { g with out_attr := set2 g.out_attr u c A' }
          with in_attr := set2 g.in_attr v c2 A' } : ARGraph).out = g.out :=
        rfl
      have h2 : HasEdgeA { { g with out_attr := set2 g.out_attr u c A' }
          with in_attr := set2 g.in_attr v c2 A' } u v = some A' := by
        unfold HasEdgeA
        rw [hout, hb]
        show some (((set2 g.out_attr u c A').getD u []).getD c 0) = some A'
        rw [set2_getD_self hu_lt, getD_set_self hcb']
      have h3 : inAttrOf { { g with out_attr := set2 g.out_attr u c A' }
          with in_attr := set2 g.in_attr v c2 A' } v u = A' := by
        unfold inAttrOf
        show ((set2 g.in_attr v c2 A').getD v []).getD
          ((g.inn.getD v []).indexOf u) 0 = A'
        rw [set2_getD_self hv_lt, ← hK2, getD_set_self hc2b']
      refine ⟨?_, h2, h3⟩
      intro x y hmem'
      have hmem2 : y ∈ g.out.getD x [] := hmem'
      obtain ⟨holdmem, holdeq⟩ := halias x y hmem2
      refine ⟨holdmem, ?_⟩
      unfold inAttrOf outAttrOf
      show ((set2 g.in_attr v c2 A').getD y []).getD
          ((g.inn.getD y []).indexOf x) 0
        = ((set2 g.out_attr u c A').getD x []).getD
          ((g.out.getD x []).indexOf y) 0
      by_cases hxu : x = u
      · subst hxu
        rw [set2_getD_self hu_lt]
        by_cases hyv : y = v
        · subst hyv
          rw [← hK1, getD_set_self hcb', set2_getD_self hv_lt, ← hK2,
            getD_set_self hc2b']
        · have hcney : c ≠ (g.out.getD x []).indexOf y := by
            intro heq
            have := getD_indexOf hmem2
            rw [← heq, hvb] at this
            exact hyv this.symm
          rw [getD_set_ne hcney, set2_getD_ne (fun hvy => hyv hvy.symm)]
          exact holdeq
      · rw [set2_getD_ne (fun hux => hxu hux.symm)]
        by_cases hyv : y = v
        · subst hyv
          rw [set2_getD_self hv_lt]
          have hc2nex : c2 ≠ (g.inn.getD y []).indexOf x := by
            intro heq
            have := getD_indexOf holdmem
            rw [← heq, hub] at this
            exact hxu this.symm
          rw [getD_set_ne hc2nex]
          exact holdeq
        · rw [set2_getD_ne (fun hvy => hyv hvy.symm)]
          exact holdeq

/-- C4: aliasing invariant.  For every recorded edge `(u, v)`, the
edge-attribute handle stored in `u`'s out-entry for `v` is the same handle
as the one stored in `v`'s in-entry for `u`.  This holds after construction
from any loader (whose reported edges stay inside the graph, the loader
contract) whenever the constructor completes, and it is preserved by
`SetEdgeAttr`, which updates both entries, so after `SetEdgeAttr(u, v, A')`
both `HasEdge(u, v, &p)` and the in-list lookup at `v` yield `A'` (stated
over graphs satisfying the representation invariants: parallel array
lengths and duplicate-free adjacency rows). -/
theorem aliasing_invariant :
    (∀ (L : ARGLoader) (g : ARGraph), LoaderTargetsOk L →
        buildARGraph L = .ok g → AliasInv g)
    ∧ (∀ (g : ARGraph) (u v A' : Nat) (dO : Bool) (g' : ARGraph),
        g.out_attr.length = g.out.length →
        g.in_attr.length = g.inn.length →
        (g.out_attr.getD u []).length = (g.out.getD u []).length →
        (g.in_attr.getD v []).length = (g.inn.getD v []).length →
        (g.out.getD u []).Nodup →
        (g.inn.getD v []).Nodup →
        AliasInv g →
        SetEdgeAttr g u v A' dO = .ok g' →
        AliasInv g' ∧ HasEdgeA g' u v = some A' ∧ inAttrOf g' v u = A') :=
  ⟨fun _ _ ht h => build_alias ht h,
   fun _ _ _ _ _ _ h1 h2 h3 h4 h5 h6 h7 h8 =>
    setEdgeAttr_alias h1 h2 h3 h4 h5 h6 h7 h8⟩

/-- Witness for C4: the triangle graph satisfies the aliasing invariant
after construction, and after `SetEdgeAttr(0, 1, 7)` it still does, with
both the out-entry lookup and the in-entry at node 1 yielding 7. -/
theorem aliasing_invariant_witness :
    AliasInv (mkARGraph triangleLoader)
    ∧ (AliasInv triangleSetResult
        ∧ HasEdgeA triangleSetResult 0 1 = some 7
        ∧ inAttrOf triangleSetResult 1 0 = 7) :=
  ⟨aliasing_invariant.1 triangleLoader (mkARGraph triangleLoader)
      (by unfold LoaderTargetsOk; decide) rfl,
   aliasing_invariant.2 (mkARGraph triangleLoader) 0 1 7 false
      triangleSetResult (by decide) (by decide) (by decide) (by decide)
      (by decide) (by decide)
      (aliasing_invariant.1 triangleLoader (mkARGraph triangleLoader)
        (by unfold LoaderTargetsOk; decide) rfl)
      rfl⟩

end VF2Lib
